import Mathlib

/-!
Formal model of the RISC-V SimpleOS kernel.

The definitions below are a shallow embedding of the kernel sources:
the trap dispatch pipeline and the free-list page allocator come from
kernel_backup.c; the full-kernel trap handler with syscall dispatch and
the RAM filesystem operations (which live in kernel.c, absent from the
source snapshot) are modelled from the specification and the repository
walkthrough, as marked on each such definition.

Machine integers are modelled as Nat with the bit operations the C code
performs written out explicitly; the in-memory singly-linked free list is
modelled as the Lean list of its node addresses, with the next-pointer
stores into page memory kept explicit.
-/

namespace SimpleOS

/-- Result of one run of the backup-kernel trap handler: the final value of
the mepc CSR when the handler finishes (whether it returns or halts), and
whether it entered the permanent panic halt loop. -/
structure TrapResult where
  mepc : Nat
  panics : Bool
  deriving Repr, DecidableEq

/-- Shallow embedding of trap_handler from kernel_backup.c (lines 148-232).
The cause CSR is decoded as in the C: bit 63 distinguishes interrupts,
the low six bits are the exception code. For a non-interrupt trap whose
code differs from 3 the handler writes epc + 4 back to mepc; this write
happens before the fatality check, so it is performed even for codes that
then panic. The handler panics exactly when the trap is a non-interrupt
exception whose code is none of 3, 8, 9, 11. All printf calls are pure
logging and are not modelled. -/
def trap_handler (cause epc : Nat) : TrapResult :=
  let is_interrupt : Nat := (cause >>> 63) &&& 1
  let code : Nat := cause &&& 0x3F
  let mepc1 : Nat :=
    if is_interrupt = 0 then
      if code = 3 then epc else epc + 4
    else epc
  let doesPanic : Bool :=
    decide (is_interrupt = 0 ∧ code ≠ 3 ∧ code ≠ 8 ∧ code ≠ 9 ∧ code ≠ 11)
  { mepc := mepc1, panics := doesPanic }

/-- C2: the trap handler enters the permanent panic halt exactly when the
trap is a non-interrupt exception whose code (low six cause bits) is not
one of 3, 8, 9, 11; interrupts and exceptions with code in that set never
panic, so they resume. -/
theorem trap_handler_panics_iff (cause epc : Nat) :
    (trap_handler cause epc).panics = true ↔
      ((cause >>> 63) &&& 1 = 0 ∧ cause &&& 0x3F ≠ 3 ∧ cause &&& 0x3F ≠ 8 ∧
        cause &&& 0x3F ≠ 9 ∧ cause &&& 0x3F ≠ 11) := by
  simp [trap_handler]

/-- C8: for a non-interrupt trap with exception code 3 (breakpoint) the
handler does not panic and leaves mepc at the trapping instruction, so
execution resumes at the breakpoint itself. -/
theorem trap_handler_breakpoint (cause epc : Nat)
    (hint : (cause >>> 63) &&& 1 = 0) (hcode : cause &&& 0x3F = 3) :
    (trap_handler cause epc).panics = false ∧ (trap_handler cause epc).mepc = epc := by
  simp [trap_handler, hint, hcode]

/-- Witness for C8: cause 3 decodes to a non-interrupt breakpoint, which
resumes at the unchanged program counter. -/
theorem trap_handler_breakpoint_witness :
    (trap_handler 3 100).panics = false ∧ (trap_handler 3 100).mepc = 100 :=
  trap_handler_breakpoint 3 100 (by decide) (by decide)

/-- C10: the backup-kernel trap handler advances mepc by 4 for every
non-interrupt exception whose code is not 3 — the fatal codes included,
since the write precedes the fatality check — and never advances it for a
breakpoint or for an interrupt. -/
theorem trap_handler_mepc_advance (cause epc : Nat) :
    ((cause >>> 63) &&& 1 = 0 → cause &&& 0x3F ≠ 3 →
        (trap_handler cause epc).mepc = epc + 4) ∧
    ((cause >>> 63) &&& 1 = 0 → cause &&& 0x3F = 3 →
        (trap_handler cause epc).mepc = epc) ∧
    ((cause >>> 63) &&& 1 ≠ 0 → (trap_handler cause epc).mepc = epc) := by
  refine ⟨fun hint hcode => by simp [trap_handler, hint, hcode],
    fun hint hcode => by simp [trap_handler, hint, hcode],
    fun hint => ?_⟩
  rw [Nat.and_one_is_mod] at hint
  simp [trap_handler, hint]

/-- Witness for C10: cause 2 (illegal instruction, a fatal code) still has
its mepc advanced by 4, and the handler then panics. -/
theorem trap_handler_mepc_advance_witness :
    (trap_handler 2 100).mepc = 104 ∧ (trap_handler 2 100).panics = true :=
  ⟨(trap_handler_mepc_advance 2 100).1 (by decide) (by decide), by decide⟩

/-- Saved general-purpose register frame, from the TrapFrame struct in
common.h: all integer registers in the save order of trap_vector. -/
structure TrapFrame where
  ra : Nat
  sp : Nat
  gp : Nat
  tp : Nat
  t0 : Nat
  t1 : Nat
  t2 : Nat
  s0 : Nat
  s1 : Nat
  a0 : Nat
  a1 : Nat
  a2 : Nat
  a3 : Nat
  a4 : Nat
  a5 : Nat
  a6 : Nat
  a7 : Nat
  s2 : Nat
  s3 : Nat
  s4 : Nat
  s5 : Nat
  s6 : Nat
  s7 : Nat
  s8 : Nat
  s9 : Nat
  s10 : Nat
  s11 : Nat
  t3 : Nat
  t4 : Nat
  t5 : Nat
  t6 : Nat
  deriving Repr, DecidableEq

/-- Result of one run of the full-kernel trap handler: final mepc, whether
it panicked, and the list of syscall-dispatcher invocations it made, each
recorded as (syscall id, arg0, arg1, arg2). -/
structure FullTrapResult where
  mepc : Nat
  panics : Bool
  syscalls : List (Nat × Nat × Nat × Nat)
  deriving Repr, DecidableEq

/-- Modelled from the spec: trap_handler of the full kernel. The file
kernel.c, which holds this handler together with the syscall dispatcher,
is absent from the source snapshot (only kernel_backup.c and the
walkthrough remain); this definition follows the spec transition table in
section 4.2 and the walkthrough. Interrupts are log-only; ecall codes
8, 9, 11 invoke the syscall dispatcher with the trap frame a7 (syscall
id) and a0, a1, a2 argument registers and then advance mepc by one 4-byte
instruction, recoverably; breakpoint (code 3) is recoverable with mepc
unchanged; every other exception code is fatal. The syscalls field
records each dispatcher invocation in order. -/
def trap_handler_full (cause epc : Nat) (frame : TrapFrame) : FullTrapResult :=
  let is_interrupt : Nat := (cause >>> 63) &&& 1
  let code : Nat := cause &&& 0x3F
  if is_interrupt ≠ 0 then
    { mepc := epc, panics := false, syscalls := [] }
  else if code = 8 ∨ code = 9 ∨ code = 11 then
    { mepc := epc + 4, panics := false,
      syscalls := [(frame.a7, frame.a0, frame.a1, frame.a2)] }
  else if code = 3 then
    { mepc := epc, panics := false, syscalls := [] }
  else
    { mepc := epc + 4, panics := true, syscalls := [] }

/-- C1: for a non-interrupt exception whose code is 8, 9 or 11 (an
environment call), the full-kernel trap handler invokes the syscall
dispatcher exactly once, with the frame a7 as syscall id and a0, a1, a2
as arguments, then advances mepc by exactly 4, and does not panic, so the
resumed stream continues after the ecall and never re-executes it. -/
theorem trap_handler_full_ecall (cause epc : Nat) (frame : TrapFrame)
    (hint : (cause >>> 63) &&& 1 = 0)
    (hcode : cause &&& 0x3F = 8 ∨ cause &&& 0x3F = 9 ∨ cause &&& 0x3F = 11) :
    (trap_handler_full cause epc frame).syscalls =
        [(frame.a7, frame.a0, frame.a1, frame.a2)] ∧
      (trap_handler_full cause epc frame).mepc = epc + 4 ∧
      (trap_handler_full cause epc frame).panics = false := by
  rcases hcode with h | h | h <;> simp [trap_handler_full, hint, h]

/-- Witness for C1: cause 8 (ecall from U-mode) at epc 4096 with the frame
holding syscall id 1 and argument 77 dispatches exactly once with those
values, and resumes at 4100 without panicking. -/
theorem trap_handler_full_ecall_witness :
    (trap_handler_full 8 4096
        ⟨0, 0, 0, 0, 0, 0, 0, 0, 0, 77, 5, 6, 0, 0, 0, 0, 1,
          0, 0, 0, 0, 0, 0, 0, 0, 0, 0, 0, 0, 0, 0⟩).syscalls = [(1, 77, 5, 6)] ∧
      (trap_handler_full 8 4096
        ⟨0, 0, 0, 0, 0, 0, 0, 0, 0, 77, 5, 6, 0, 0, 0, 0, 1,
          0, 0, 0, 0, 0, 0, 0, 0, 0, 0, 0, 0, 0, 0⟩).mepc = 4100 ∧
      (trap_handler_full 8 4096
        ⟨0, 0, 0, 0, 0, 0, 0, 0, 0, 77, 5, 6, 0, 0, 0, 0, 1,
          0, 0, 0, 0, 0, 0, 0, 0, 0, 0, 0, 0, 0, 0⟩).panics = false :=
  trap_handler_full_ecall 8 4096 _ (by decide) (Or.inl (by decide))

/-- One byte store into the flat byte memory. -/
def writeByte (mem : Nat → Nat) (a v : Nat) : Nat → Nat :=
  fun x => if x = a then v else mem x

/-- Shallow embedding of the zero-fill loop in alloc_page: writes byte 0 at
base + i for every i below n (the C runs it with n = 4096). -/
def zeroFillLoop (mem : Nat → Nat) (base : Nat) : Nat → (Nat → Nat)
  | 0 => mem
  | n + 1 => writeByte (zeroFillLoop mem base n) (base + n) 0

/-- An 8-byte little-endian word store, used for the next links the C code
keeps in the first machine word of each free page. -/
def storeWord (mem : Nat → Nat) (a v : Nat) : Nat → Nat :=
  fun x => if a ≤ x ∧ x < a + 8 then (v >>> ((x - a) * 8)) &&& 0xFF else mem x

/-- Global page allocator state from kernel_backup.c: the free list
(modelled as the Lean list of free-page addresses, head first, in place of
the in-memory next-pointer chain), the two counters, and the flat byte
memory. -/
structure AllocState where
  free_page_list : List Nat
  total_pages : Nat
  free_pages : Nat
  mem : Nat → Nat

/-- Address list built by the linking loop of pages_init: n consecutive
pages starting at start, each 4096 bytes after the previous. -/
def buildFreeList (start : Nat) : Nat → List Nat
  | 0 => []
  | n + 1 => start :: buildFreeList (start + 4096) n

/-- The next-pointer stores performed by the pages_init linking loop: each
node gets the address of its successor, the last node gets 0 (NULL). -/
def writeLinks (mem : Nat → Nat) : List Nat → (Nat → Nat)
  | [] => mem
  | [a] => storeWord mem a 0
  | a :: b :: rest => writeLinks (storeWord mem a b) (b :: rest)

/-- Shallow embedding of pages_init from kernel_backup.c for a positive
page count: the free list covers total consecutive pages starting at the
page-aligned free_mem_start, both counters are set to total, and the next
links are threaded through memory. (The C loop is only meaningful for a
positive total; with total zero its unsigned total_pages - 1 bound would
wrap around.) -/
def pages_init (mem0 : Nat → Nat) (free_mem_start total : Nat) : AllocState :=
  { free_page_list := buildFreeList free_mem_start total,
    total_pages := total,
    free_pages := total,
    mem := writeLinks mem0 (buildFreeList free_mem_start total) }

/-- Shallow embedding of alloc_page from kernel_backup.c: on an empty free
list print an error and return 0 with the state untouched; otherwise pop
the head, decrement free_pages, zero-fill all 4096 bytes of the page and
return its address. -/
def alloc_page (st : AllocState) : Nat × AllocState :=
  match st.free_page_list with
  | [] => (0, st)
  | p :: rest =>
      (p, { free_page_list := rest,
            total_pages := st.total_pages,
            free_pages := st.free_pages - 1,
            mem := zeroFillLoop st.mem p 4096 })

/-- Shallow embedding of free_page from kernel_backup.c: a zero address is
rejected with a log message and no state change; otherwise the page is
pushed onto the free-list head (its first word is overwritten with the old
head address, 0 when the list was empty) and free_pages is incremented. -/
def free_page (st : AllocState) (page_addr : Nat) : AllocState :=
  if page_addr = 0 then st
  else
    let nextVal : Nat :=
      match st.free_page_list with
      | [] => 0
      | h :: _ => h
    { free_page_list := page_addr :: st.free_page_list,
      total_pages := st.total_pages,
      free_pages := st.free_pages + 1,
      mem := storeWord st.mem page_addr nextVal }

/-- Every byte in the filled range reads as zero after the zero-fill loop. -/
theorem zeroFillLoop_eq_zero (mem : Nat → Nat) (base n i : Nat) (hi : i < n) :
    zeroFillLoop mem base n (base + i) = 0 := by
  induction n with
  | zero => omega
  | succ m ih =>
      by_cases him : i = m
      · subst him
        simp [zeroFillLoop, writeByte]
      · have : i < m := by omega
        simp only [zeroFillLoop, writeByte]
        rw [if_neg (by omega)]
        exact ih this

/-- C4: a successful alloc_page call (non-empty free list) pops the
free-list head, returns its address, and every one of the 4096 bytes of
the returned page reads as zero before any write by the caller. -/
theorem alloc_page_pops_and_zeroes (st : AllocState) (p : Nat) (rest : List Nat)
    (h : st.free_page_list = p :: rest) (i : Nat) (hi : i < 4096) :
    (alloc_page st).1 = p ∧ (alloc_page st).2.free_page_list = rest ∧
      (alloc_page st).2.mem (p + i) = 0 := by
  simp only [alloc_page]
  split
  · simp_all
  · rename_i q qs hq
    rw [h] at hq
    cases hq
    exact ⟨rfl, rfl, zeroFillLoop_eq_zero st.mem p 4096 i hi⟩

/-- Witness for C4: from a one-page free list holding address 8192 over a
memory of all-55 bytes, alloc_page returns 8192 with an emptied list and
its last byte reads zero. -/
theorem alloc_page_pops_and_zeroes_witness :
    (alloc_page ⟨[8192], 1, 1, fun _ => 55⟩).1 = 8192 ∧
      (alloc_page ⟨[8192], 1, 1, fun _ => 55⟩).2.free_page_list = [] ∧
      (alloc_page ⟨[8192], 1, 1, fun _ => 55⟩).2.mem (8192 + 4095) = 0 :=
  alloc_page_pops_and_zeroes ⟨[8192], 1, 1, fun _ => 55⟩ 8192 [] rfl 4095 (by decide)

/-- C5: alloc_page on an empty free list returns the failure value 0 and
the unchanged allocator state — free list, both counters, and all page
contents included. -/
theorem alloc_page_empty_no_effect (st : AllocState)
    (h : st.free_page_list = []) : alloc_page st = (0, st) := by
  simp only [alloc_page]
  split
  · rfl
  · simp_all

/-- Witness for C5: alloc_page on a concrete empty-list state returns 0 and
that very state. -/
theorem alloc_page_empty_no_effect_witness :
    alloc_page ⟨[], 4, 0, fun _ => 7⟩ = (0, (⟨[], 4, 0, fun _ => 7⟩ : AllocState)) :=
  alloc_page_empty_no_effect ⟨[], 4, 0, fun _ => 7⟩ rfl

/-- C6: free_page of the null address is a logged no-op — free list, both
counters and memory all unchanged — while free_page of any non-zero
address pushes that page onto the free-list head, increments free_pages by
one and leaves total_pages alone. -/
theorem free_page_null_and_push (st : AllocState) (a : Nat) :
    free_page st 0 = st ∧
      (a ≠ 0 →
        (free_page st a).free_page_list = a :: st.free_page_list ∧
          (free_page st a).free_pages = st.free_pages + 1 ∧
          (free_page st a).total_pages = st.total_pages) := by
  constructor
  · simp [free_page]
  · intro ha
    simp [free_page, ha]

/-- Witness for C6: freeing the null page leaves a concrete state intact,
and freeing page 4096 pushes it and bumps the free counter. -/
theorem free_page_null_and_push_witness :
    free_page ⟨[8192], 2, 1, fun _ => 9⟩ 0 = (⟨[8192], 2, 1, fun _ => 9⟩ : AllocState) ∧
      (free_page ⟨[8192], 2, 1, fun _ => 9⟩ 4096).free_page_list = [4096, 8192] ∧
      (free_page ⟨[8192], 2, 1, fun _ => 9⟩ 4096).free_pages = 2 ∧
      (free_page ⟨[8192], 2, 1, fun _ => 9⟩ 4096).total_pages = 2 :=
  ⟨(free_page_null_and_push ⟨[8192], 2, 1, fun _ => 9⟩ 4096).1,
    (free_page_null_and_push ⟨[8192], 2, 1, fun _ => 9⟩ 4096).2 (by decide)⟩

/-- The pages_init linking loop threads exactly n nodes. -/
theorem buildFreeList_length (start n : Nat) : (buildFreeList start n).length = n := by
  induction n generalizing start with
  | zero => rfl
  | succ m ih => simp [buildFreeList, ih]

/-- Unfolding of alloc_page on an empty free list. -/
theorem alloc_page_empty_list (st : AllocState) (h : st.free_page_list = []) :
    alloc_page st = (0, st) := by
  simp only [alloc_page]
  split
  · rfl
  · simp_all

/-- Unfolding of alloc_page on a non-empty free list. -/
theorem alloc_page_cons (st : AllocState) (p : Nat) (rest : List Nat)
    (h : st.free_page_list = p :: rest) :
    alloc_page st =
      (p, { free_page_list := rest, total_pages := st.total_pages,
            free_pages := st.free_pages - 1, mem := zeroFillLoop st.mem p 4096 }) := by
  simp only [alloc_page]
  split
  · simp_all
  · rename_i q qs hq
    rw [h] at hq
    cases hq
    rfl

/-- C9: the free-page counter tracks the free-list length and the
total-page counter is constant: pages_init (for a positive page count)
establishes free_pages = total_pages = list length, a successful
alloc_page removes one node and decrements free_pages by one, a non-null
free_page adds one node and increments free_pages by one, and the two
failure paths (empty-list alloc_page, null free_page) change nothing. -/
theorem allocator_counter_invariant (mem0 : Nat → Nat) (start total : Nat)
    (st : AllocState) (a : Nat) (_htotal : 0 < total) :
    ((pages_init mem0 start total).free_pages = total ∧
      (pages_init mem0 start total).total_pages = total ∧
      (pages_init mem0 start total).free_page_list.length = total) ∧
    (st.free_pages = st.free_page_list.length →
      (alloc_page st).2.free_pages = (alloc_page st).2.free_page_list.length ∧
        (free_page st a).free_pages = (free_page st a).free_page_list.length) ∧
    (alloc_page st).2.total_pages = st.total_pages ∧
    (free_page st a).total_pages = st.total_pages ∧
    (st.free_page_list ≠ [] → st.free_pages = st.free_page_list.length →
      (alloc_page st).2.free_pages + 1 = st.free_pages ∧
        (alloc_page st).2.free_page_list.length + 1 = st.free_page_list.length) ∧
    (a ≠ 0 →
      (free_page st a).free_pages = st.free_pages + 1 ∧
        (free_page st a).free_page_list.length = st.free_page_list.length + 1) ∧
    (st.free_page_list = [] → (alloc_page st).2 = st) ∧
    free_page st 0 = st := by
  have hfree : ∀ b : Nat, b ≠ 0 →
      (free_page st b).free_page_list = b :: st.free_page_list ∧
        (free_page st b).free_pages = st.free_pages + 1 ∧
        (free_page st b).total_pages = st.total_pages := by
    intro b hb
    simp [free_page, hb]
  refine ⟨⟨rfl, rfl, buildFreeList_length start total⟩, ?_, ?_, ?_, ?_, ?_, ?_, ?_⟩
  · intro hinv
    constructor
    · cases hl : st.free_page_list with
      | nil => rw [alloc_page_empty_list st hl]; exact hinv
      | cons p rest =>
          rw [alloc_page_cons st p rest hl]
          simp [hl] at hinv ⊢
          omega
    · by_cases ha : a = 0
      · subst ha
        simp [free_page, hinv]
      · obtain ⟨h1, h2, _⟩ := hfree a ha
        rw [h1, h2, hinv]
        simp
  · cases hl : st.free_page_list with
    | nil => rw [alloc_page_empty_list st hl]
    | cons p rest => rw [alloc_page_cons st p rest hl]
  · by_cases ha : a = 0
    · subst ha
      simp [free_page]
    · exact (hfree a ha).2.2
  · intro hne hinv
    cases hl : st.free_page_list with
    | nil => exact absurd hl hne
    | cons p rest =>
        rw [alloc_page_cons st p rest hl]
        simp [hl] at hinv ⊢
        omega
  · intro ha
    obtain ⟨h1, h2, _⟩ := hfree a ha
    rw [h1, h2]
    simp
  · intro hl
    rw [alloc_page_empty_list st hl]
  · simp [free_page]

/-- Witness for C9: initializing three pages at 4096 yields counters and a
list all of size three, and a push then pop on a concrete state moves both
the counter and the length by one each way. -/
theorem allocator_counter_invariant_witness :
    (pages_init (fun _ => 0) 4096 3).free_pages = 3 ∧
      (pages_init (fun _ => 0) 4096 3).free_page_list.length = 3 ∧
      (free_page (⟨[8192], 2, 1, fun _ => 0⟩ : AllocState) 4096).free_pages = 2 :=
  ⟨(allocator_counter_invariant (fun _ => 0) 4096 3 ⟨[8192], 2, 1, fun _ => 0⟩ 4096
      (by decide)).1.1,
    (allocator_counter_invariant (fun _ => 0) 4096 3 ⟨[8192], 2, 1, fun _ => 0⟩ 4096
      (by decide)).1.2.2,
    ((allocator_counter_invariant (fun _ => 0) 4096 3 ⟨[8192], 2, 1, fun _ => 0⟩ 4096
      (by decide)).2.2.2.2.2.1 (by decide)).1⟩

/-- A client-visible allocator call. -/
inductive AllocOp where
  | alloc : AllocOp
  | free : Nat → AllocOp
  deriving Repr, DecidableEq

/-- Allocator state paired with the list of currently-held allocation
addresses: the pages returned by successful alloc_page calls and not yet
handed back. The held list is ghost bookkeeping of the clients, kept
alongside the code state to express ownership. -/
structure SysState where
  st : AllocState
  held : List Nat

/-- One client call: an alloc runs alloc_page (the 0 return is the failure
sentinel and is not held); a free hands the address to free_page and drops
it from the held list. -/
def stepOp (s : SysState) : AllocOp → SysState
  | AllocOp.alloc =>
      let r := alloc_page s.st
      { st := r.2, held := if r.1 = 0 then s.held else r.1 :: s.held }
  | AllocOp.free a => { st := free_page s.st a, held := s.held.erase a }

/-- Run a call sequence left to right. -/
def runOps (s : SysState) : List AllocOp → SysState
  | [] => s
  | op :: rest => runOps (stepOp s op) rest

/-- A call sequence is valid when every free hands back an address the
client currently holds: the documented caller obligation, since free_page
itself does not validate ownership. -/
def validOps (s : SysState) : List AllocOp → Bool
  | [] => true
  | AllocOp.alloc :: rest => validOps (stepOp s AllocOp.alloc) rest
  | AllocOp.free a :: rest =>
      s.held.contains a && validOps (stepOp s (AllocOp.free a)) rest

/-- Allocator well-formedness: the held pages and the free-list pages are
pairwise distinct addresses, and the null sentinel is neither held nor on
the free list. -/
def WF (s : SysState) : Prop :=
  (s.held ++ s.st.free_page_list).Nodup ∧ 0 ∉ s.held ∧ 0 ∉ s.st.free_page_list

/-- An alloc step preserves allocator well-formedness. -/
theorem stepOp_alloc_WF (s : SysState) (hwf : WF s) : WF (stepOp s AllocOp.alloc) := by
  obtain ⟨hnd, hheld0, hfree0⟩ := hwf
  cases hl : s.st.free_page_list with
  | nil =>
      simp only [stepOp, alloc_page_empty_list s.st hl]
      exact ⟨by simpa [hl] using hnd, hheld0, hfree0⟩
  | cons p rest =>
      rw [hl] at hnd hfree0
      have hp0 : p ≠ 0 := by
        intro h
        subst h
        exact hfree0 (List.mem_cons_self 0 rest)
      simp only [stepOp, alloc_page_cons s.st p rest hl]
      refine ⟨?_, ?_, ?_⟩
      · rw [if_neg hp0]
        have hperm : List.Perm (s.held ++ p :: rest) (p :: (s.held ++ rest)) :=
          List.perm_middle
        have h2 := hperm.nodup_iff.mp hnd
        simpa using h2
      · rw [if_neg hp0]
        intro h
        rcases List.mem_cons.mp h with h0 | h0
        · exact hp0 h0.symm
        · exact hheld0 h0
      · intro h
        exact hfree0 (List.mem_cons_of_mem p h)

/-- A free step of a currently-held page preserves allocator
well-formedness. -/
theorem stepOp_free_WF (s : SysState) (a : Nat) (ha : a ∈ s.held) (hwf : WF s) :
    WF (stepOp s (AllocOp.free a)) := by
  obtain ⟨hnd, hheld0, hfree0⟩ := hwf
  have ha0 : a ≠ 0 := fun h => hheld0 (h ▸ ha)
  have hperm1 : List.Perm s.held (a :: s.held.erase a) := List.perm_cons_erase ha
  have hperm2 : List.Perm (s.held ++ s.st.free_page_list)
      (a :: (s.held.erase a ++ s.st.free_page_list)) := hperm1.append_right _
  have hnd2 : (a :: (s.held.erase a ++ s.st.free_page_list)).Nodup :=
    hperm2.nodup_iff.mp hnd
  have hperm3 : List.Perm (s.held.erase a ++ a :: s.st.free_page_list)
      (a :: (s.held.erase a ++ s.st.free_page_list)) := List.perm_middle
  have hfp : (free_page s.st a).free_page_list = a :: s.st.free_page_list := by
    simp [free_page, ha0]
  refine ⟨?_, ?_, ?_⟩
  · show (s.held.erase a ++ (free_page s.st a).free_page_list).Nodup
    rw [hfp]
    exact hperm3.nodup_iff.mpr hnd2
  · show 0 ∉ s.held.erase a
    exact fun h => hheld0 ((List.erase_sublist a s.held).subset h)
  · show 0 ∉ (free_page s.st a).free_page_list
    rw [hfp]
    intro h
    rcases List.mem_cons.mp h with h0 | h0
    · exact ha0 h0.symm
    · exact hfree0 h0

/-- Any valid call sequence preserves allocator well-formedness. -/
theorem runOps_WF (ops : List AllocOp) (s : SysState)
    (hwf : WF s) (hvalid : validOps s ops = true) : WF (runOps s ops) := by
  induction ops generalizing s with
  | nil => exact hwf
  | cons op rest ih =>
      cases op with
      | alloc =>
          exact ih _ (stepOp_alloc_WF s hwf) (by simpa [validOps] using hvalid)
      | free a =>
          simp only [validOps, Bool.and_eq_true] at hvalid
          have ha : a ∈ s.held := by
            have := hvalid.1
            simpa using this
          exact ih _ (stepOp_free_WF s a ha hwf) hvalid.2

/-- Every address the pages_init loop threads is at least the start of the
free region. -/
theorem buildFreeList_mem_le (start n x : Nat) (hx : x ∈ buildFreeList start n) :
    start ≤ x := by
  induction n generalizing start with
  | zero => simp [buildFreeList] at hx
  | succ m ih =>
      simp only [buildFreeList, List.mem_cons] at hx
      rcases hx with rfl | hx
      · exact le_refl x
      · have := ih (start + 4096) hx
        omega

/-- The free list built by pages_init has no duplicate addresses. -/
theorem buildFreeList_nodup (start n : Nat) : (buildFreeList start n).Nodup := by
  induction n generalizing start with
  | zero => simp [buildFreeList]
  | succ m ih =>
      rw [buildFreeList, List.nodup_cons]
      refine ⟨fun hmem => ?_, ih (start + 4096)⟩
      have := buildFreeList_mem_le (start + 4096) m start hmem
      omega

/-- The boot-time allocator state is well-formed whenever the free region
starts above the null address. -/
theorem pages_init_WF (mem0 : Nat → Nat) (start total : Nat) (hstart : 0 < start) :
    WF { st := pages_init mem0 start total, held := [] } := by
  refine ⟨?_, by simp, ?_⟩
  · simpa [pages_init] using buildFreeList_nodup start total
  · intro hmem
    simp only [pages_init] at hmem
    have := buildFreeList_mem_le start total 0 hmem
    omega

/-- C3: for every valid sequence of allocate/free calls from the boot state
(each free returns a held page), the concurrently-held allocations are
pairwise distinct addresses; and immediately after free_page of a non-null
page p, the next alloc_page returns p again — LIFO reuse of the free-list
head. -/
theorem allocator_distinct_and_lifo (mem0 : Nat → Nat) (start total : Nat)
    (ops : List AllocOp) (anyst : AllocState) (p : Nat) (hstart : 0 < start)
    (hvalid : validOps { st := pages_init mem0 start total, held := [] } ops = true)
    (hp : p ≠ 0) :
    (runOps { st := pages_init mem0 start total, held := [] } ops).held.Nodup ∧
      (alloc_page (free_page anyst p)).1 = p := by
  constructor
  · have h := runOps_WF ops _ (pages_init_WF mem0 start total hstart) hvalid
    exact h.1.of_append_left
  · have hl : (free_page anyst p).free_page_list = p :: anyst.free_page_list := by
      simp [free_page, hp]
    rw [alloc_page_cons _ p _ hl]

/-- Witness for C3: from a two-page boot state at 4096, the sequence
alloc, free 4096, alloc is valid, leaves a duplicate-free held list, and a
free of page 8192 followed by an alloc returns 8192 again. -/
theorem allocator_distinct_and_lifo_witness :
    (runOps { st := pages_init (fun _ => 0) 4096 2, held := [] }
        [AllocOp.alloc, AllocOp.free 4096, AllocOp.alloc]).held.Nodup ∧
      (alloc_page (free_page (⟨[], 2, 0, fun _ => 0⟩ : AllocState) 8192)).1 = 8192 :=
  allocator_distinct_and_lifo (fun _ => 0) 4096 2
    [AllocOp.alloc, AllocOp.free 4096, AllocOp.alloc]
    ⟨[], 2, 0, fun _ => 0⟩ 8192 (by decide) (by decide) (by decide)

/-- Modelled from the spec: the content state of one open file of the RAM
filesystem. The implementing file kernel.c is absent from the source
snapshot; per the spec data model an inode stores a byte length and a
one-page data area, abstracted here as the byte length and the stored
byte list. -/
structure FsFile where
  size : Nat
  data : List Nat
  deriving Repr, DecidableEq

/-- Modelled from the spec: fs_write of the missing kernel.c — a
truncating overwrite that copies up to one page (4096 bytes) of the
buffer into the file data area, updates the length, and returns the
number of bytes written. -/
def fs_write (_f : FsFile) (buf : List Nat) (count : Nat) : FsFile × Nat :=
  let n := min count 4096
  ({ size := n, data := buf.take n }, n)

/-- Modelled from the spec: fs_read of the missing kernel.c — copies
min(max, length) bytes into the caller buffer, always starting from the
first byte of the file (no persistent read cursor), and returns the
number of bytes copied. -/
def fs_read (f : FsFile) (maxCount : Nat) : List Nat × Nat :=
  let n := min maxCount f.size
  (f.data.take n, n)

/-- C7: a write of n bytes (n at most one page) followed immediately by a
read with a limit of at least n returns exactly the written bytes and the
length n, because the read copies min(limit, length) bytes from the start
of the file. -/
theorem fs_write_read_round_trip (f : FsFile) (buf : List Nat) (n maxCount : Nat)
    (hlen : buf.length = n) (hpage : n ≤ 4096) (hmax : n ≤ maxCount) :
    fs_read (fs_write f buf n).1 maxCount = (buf, n) := by
  have h1 : min n 4096 = n := Nat.min_eq_left hpage
  have h2 : min maxCount n = n := Nat.min_eq_right hmax
  simp only [fs_write, fs_read, h1, h2]
  rw [Nat.min_comm maxCount n] at h2
  simp [fs_write, fs_read, h1, h2, List.take_take, ← hlen]

/-- Byte list of the demo string written by process A. -/
def helloBytes : List Nat :=
  ("Hello from Process A!".data).map Char.toNat

/-- Witness for C7: writing the 21 bytes of the demo string and then
reading with a limit of 256 returns exactly those bytes and length 21. -/
theorem fs_write_read_round_trip_witness :
    fs_read (fs_write ⟨0, []⟩ helloBytes 21).1 256 = (helloBytes, 21) :=
  fs_write_read_round_trip ⟨0, []⟩ helloBytes 21 256 (by decide) (by decide) (by decide)

end SimpleOS
